import Mathlib

/-!
Verification of the visual-feature analytics core of the dinov3-utilities
repository, as a shallow embedding in Lean 4.

Numeric model: Python floats are modelled as exact real numbers (`ℝ`) where
square roots occur (cosine similarity, euclidean norms, standard deviations),
and as exact rationals (`ℚ`) for the purely rational computations (shot
segmentation arithmetic, relevance scores).  Division by zero in Lean returns
0, which coincides with scikit-learn's handling of zero-norm rows in
`cosine_similarity` (a zero row is left as the zero vector by `normalize`, so
its cosine with anything is 0).
-/

namespace Dinov3

/-! ## VectorMath (src/app/core/dinov3_service.py)

`dot` is the inner product of two float sequences, truncating to the common
length (the callers only use equal-length vectors).  numpy's
`np.linalg.norm (a - b)` is `Real.sqrt (dot d d)` for the elementwise
difference `d`. -/

def dot (a b : List ℝ) : ℝ := (List.zipWith (fun x y => x * y) a b).sum

@[simp] theorem dot_nil_left (b : List ℝ) : dot [] b = 0 := rfl

@[simp] theorem dot_nil_right (a : List ℝ) : dot a [] = 0 := by
  cases a <;> rfl

@[simp] theorem dot_cons (a b : ℝ) (as bs : List ℝ) :
    dot (a :: as) (b :: bs) = a * b + dot as bs := by
  simp [dot]

theorem dot_eq_sum (a b : List ℝ) :
    dot a b = ∑ i ∈ Finset.range (min a.length b.length),
      a.getD i 0 * b.getD i 0 := by
  induction a generalizing b with
  | nil => simp
  | cons x xs ih =>
    cases b with
    | nil => simp
    | cons y ys =>
      rw [dot_cons, ih]
      simp only [List.length_cons, Nat.succ_min_succ, Finset.sum_range_succ']
      simp only [List.getD_cons_succ, List.getD_cons_zero]
      exact add_comm _ _

theorem dot_comm (a b : List ℝ) : dot a b = dot b a := by
  rw [dot_eq_sum, dot_eq_sum, Nat.min_comm]
  exact Finset.sum_congr rfl fun i _ => mul_comm _ _

theorem dot_self_nonneg (a : List ℝ) : 0 ≤ dot a a := by
  rw [dot_eq_sum]
  exact Finset.sum_nonneg fun i _ => mul_self_nonneg _

theorem dot_sq_le (a b : List ℝ) :
    dot a b ^ 2 ≤ dot a a * dot b b := by
  rw [dot_eq_sum a b]
  have hcs := Finset.sum_mul_sq_le_sq_mul_sq
    (Finset.range (min a.length b.length))
    (fun i => a.getD i 0) (fun i => b.getD i 0)
  have ha : ∑ i ∈ Finset.range (min a.length b.length), a.getD i 0 ^ 2 ≤ dot a a := by
    rw [dot_eq_sum a a, Nat.min_self]
    calc ∑ i ∈ Finset.range (min a.length b.length), a.getD i 0 ^ 2
        ≤ ∑ i ∈ Finset.range a.length, a.getD i 0 ^ 2 :=
          Finset.sum_le_sum_of_subset_of_nonneg
            (Finset.range_subset.2 (Nat.min_le_left _ _)) (fun i _ _ => sq_nonneg _)
      _ = ∑ i ∈ Finset.range a.length, a.getD i 0 * a.getD i 0 := by
          simp [sq]
  have hb : ∑ i ∈ Finset.range (min a.length b.length), b.getD i 0 ^ 2 ≤ dot b b := by
    rw [dot_eq_sum b b, Nat.min_self]
    calc ∑ i ∈ Finset.range (min a.length b.length), b.getD i 0 ^ 2
        ≤ ∑ i ∈ Finset.range b.length, b.getD i 0 ^ 2 :=
          Finset.sum_le_sum_of_subset_of_nonneg
            (Finset.range_subset.2 (Nat.min_le_right _ _)) (fun i _ _ => sq_nonneg _)
      _ = ∑ i ∈ Finset.range b.length, b.getD i 0 * b.getD i 0 := by
          simp [sq]
  exact hcs.trans (mul_le_mul ha hb
    (Finset.sum_nonneg fun i _ => sq_nonneg _) (dot_self_nonneg a))

theorem abs_dot_le (a b : List ℝ) :
    |dot a b| ≤ Real.sqrt (dot a a * dot b b) := by
  rw [← Real.sqrt_sq_eq_abs]
  exact Real.sqrt_le_sqrt (dot_sq_le a b)

noncomputable section

/-- sklearn `cosine_similarity` of two vectors: dot product over the product
of euclidean norms.  A zero-norm vector is left unnormalised by sklearn, so
the cosine is 0 in that case; Lean's `x / 0 = 0` convention gives the same
value (the numerator is 0 whenever a factor of the denominator is). -/
def cosine_similarity (a b : List ℝ) : ℝ :=
  dot a b / (Real.sqrt (dot a a) * Real.sqrt (dot b b))

theorem abs_cosine_le_one (a b : List ℝ) : |cosine_similarity a b| ≤ 1 := by
  unfold cosine_similarity
  rw [← Real.sqrt_mul (dot_self_nonneg a)]
  rcases eq_or_lt_of_le (Real.sqrt_nonneg (dot a a * dot b b)) with h | h
  · rw [← h, div_zero, abs_zero]
    exact zero_le_one
  · rw [abs_div, abs_of_pos h, div_le_one h]
    exact abs_dot_le a b

theorem cosine_self (v : List ℝ) (hv : dot v v ≠ 0) :
    cosine_similarity v v = 1 := by
  unfold cosine_similarity
  rw [Real.mul_self_sqrt (dot_self_nonneg v)]
  exact div_self hv

theorem cosine_comm (a b : List ℝ) :
    cosine_similarity a b = cosine_similarity b a := by
  unfold cosine_similarity
  rw [dot_comm a b, mul_comm]

/-! ## SimilarityEngine: pairwise similarity
(`DINOv3Service.calculate_similarity`, src/app/core/dinov3_service.py) -/

/-- The dict returned by `calculate_similarity`. -/
structure SimilarityResult where
  similarity_percentage : ℝ
  cosine_similarity : ℝ
  euclidean_distance : ℝ

/-- `DINOv3Service.calculate_similarity`: cosine similarity via sklearn,
euclidean distance via `np.linalg.norm(features1 - features2)`, percentage
`(cos + 1) * 50`. -/
def calculate_similarity (features1 features2 : List ℝ) : SimilarityResult :=
  let cos_sim := cosine_similarity features1 features2
  let diff := List.zipWith (fun x y => x - y) features1 features2
  let euclidean_dist := Real.sqrt (dot diff diff)
  ⟨(cos_sim + 1) * 50, cos_sim, euclidean_dist⟩

/-- The property asserted by claim C1 for one pair of equal-length vectors. -/
def PairwiseSimilaritySpec (a b : List ℝ) : Prop :=
  (calculate_similarity a b).similarity_percentage
      = ((calculate_similarity a b).cosine_similarity + 1) * 50
  ∧ -1 ≤ (calculate_similarity a b).cosine_similarity
  ∧ (calculate_similarity a b).cosine_similarity ≤ 1
  ∧ 0 ≤ (calculate_similarity a b).euclidean_distance
  ∧ 0 ≤ (calculate_similarity a b).similarity_percentage
  ∧ (calculate_similarity a b).similarity_percentage ≤ 100
  ∧ ∀ c d : List ℝ, c.length = d.length →
      ((calculate_similarity a b).similarity_percentage
          ≤ (calculate_similarity c d).similarity_percentage
        ↔ (calculate_similarity a b).cosine_similarity
          ≤ (calculate_similarity c d).cosine_similarity)

/-- C1: for equal-length vectors, `calculate_similarity` returns
percentage = (cosine + 1) * 50 with cosine in [-1, 1], euclidean ≥ 0 and
percentage in [0, 100]; the transform is monotonic, so comparing (hence
ranking) by percentage agrees with comparing by cosine. -/
theorem calculate_similarity_correct (a b : List ℝ)
    (_h : a.length = b.length) : PairwiseSimilaritySpec a b := by
  have hbounds : ∀ x y : List ℝ,
      -1 ≤ (calculate_similarity x y).cosine_similarity
      ∧ (calculate_similarity x y).cosine_similarity ≤ 1 := by
    intro x y
    have h1 := abs_cosine_le_one x y
    rw [abs_le] at h1
    exact ⟨h1.1, h1.2⟩
  refine ⟨rfl, (hbounds a b).1, (hbounds a b).2, Real.sqrt_nonneg _, ?_, ?_, ?_⟩
  · have := (hbounds a b).1
    show 0 ≤ ((calculate_similarity a b).cosine_similarity + 1) * 50
    nlinarith
  · have := (hbounds a b).2
    show ((calculate_similarity a b).cosine_similarity + 1) * 50 ≤ 100
    nlinarith
  · intro c d _
    show ((calculate_similarity a b).cosine_similarity + 1) * 50
        ≤ ((calculate_similarity c d).cosine_similarity + 1) * 50
      ↔ _ ≤ _
    constructor
    · intro hle
      nlinarith
    · intro hle
      nlinarith

/-- Witness for C1 at the concrete pair [1, 0] and [0, 1]. -/
theorem calculate_similarity_correct_witness :
    PairwiseSimilaritySpec [(1 : ℝ), 0] [(0 : ℝ), 1] :=
  calculate_similarity_correct [(1 : ℝ), 0] [(0 : ℝ), 1] rfl

/-! ## SimilarityEngine: similarity matrix
(`DINOv3Service.calculate_similarity_matrix`) -/

/-- `DINOv3Service.calculate_similarity_matrix`: sklearn pairwise cosine
similarity of all rows, then `(· + 1) * 50` elementwise. -/
def calculate_similarity_matrix (features_list : List (List ℝ)) :
    List (List ℝ) :=
  features_list.map (fun fi =>
    features_list.map (fun fj => (cosine_similarity fi fj + 1) * 50))

/-- Entry (i, j) of the similarity matrix, for in-range indices. -/
theorem similarity_matrix_entry (vs : List (List ℝ)) (i j : ℕ)
    (hi : i < vs.length) (hj : j < vs.length) :
    ((calculate_similarity_matrix vs).getD i []).getD j 0
      = (cosine_similarity (vs.getD i []) (vs.getD j []) + 1) * 50 := by
  have hi' : i < (calculate_similarity_matrix vs).length := by
    simpa [calculate_similarity_matrix] using hi
  rw [List.getD_eq_getElem _ _ hi']
  simp only [calculate_similarity_matrix, List.getElem_map]
  rw [List.getD_eq_getElem _ _ (by simpa using hj), List.getElem_map]
  rw [List.getD_eq_getElem _ _ hi, List.getD_eq_getElem _ _ hj]

/-- The property asserted by (the amended) claim C2. -/
def SimilarityMatrixSpec (vs : List (List ℝ)) : Prop :=
  (∀ i j : ℕ, i < vs.length → j < vs.length →
      ((calculate_similarity_matrix vs).getD i []).getD j 0
        = ((calculate_similarity_matrix vs).getD j []).getD i 0)
  ∧ ∀ i : ℕ, i < vs.length → dot (vs.getD i []) (vs.getD i []) ≠ 0 →
      ((calculate_similarity_matrix vs).getD i []).getD i 0 = 100

/-- C2 (amended): the similarity matrix is always symmetric, and every
diagonal entry whose vector has nonzero norm equals 100.  (For a zero-norm
vector the sklearn cosine is 0 and the diagonal entry is 50, see the
counterexample.) -/
theorem similarity_matrix_correct (vs : List (List ℝ)) :
    SimilarityMatrixSpec vs := by
  constructor
  · intro i j hi hj
    rw [similarity_matrix_entry vs i j hi hj,
      similarity_matrix_entry vs j i hj hi, cosine_comm]
  · intro i hi hv
    rw [similarity_matrix_entry vs i i hi hi, cosine_self _ hv]
    norm_num

/-- Witness for C2 (amended) on a concrete two-vector list, discharging the
in-range and nonzero-norm hypotheses. -/
theorem similarity_matrix_correct_witness :
    ((calculate_similarity_matrix [[(1 : ℝ), 0], [0, 1]]).getD 0 []).getD 0 0
      = 100 :=
  (similarity_matrix_correct [[(1 : ℝ), 0], [0, 1]]).2 0 (by decide)
    (by simp [dot])

/-- Counterexample to C2 as stated: for the single zero vector `[0]`, the
diagonal entry of the similarity matrix is 50, not 100 (the zero vector has
cosine 0 with itself under sklearn's zero-norm handling). -/
theorem similarity_matrix_diag_counterexample :
    ((calculate_similarity_matrix [[(0 : ℝ)]]).getD 0 []).getD 0 0 = 50
    ∧ ((50 : ℝ) ≠ 100) := by
  constructor
  · rw [similarity_matrix_entry [[(0 : ℝ)]] 0 0 (by decide) (by decide)]
    simp [cosine_similarity, dot]
  · norm_num

end

/-! ## Threshold grouping
(`group_by_character`, src/app/routers/character_analysis.py)

The Python loop scans `i in range(n)`, skipping indices already in
`assigned`; an unassigned `i` opens the group `[i]` and every later
unassigned `j` with `similarity_matrix[i][j] >= threshold` joins it.
Since the set of unassigned indices always remains a sorted subsequence of
`range n`, this is the same computation as the recursion below over the
sorted list of still-unassigned indices: the head opens a group, takes the
candidates meeting the threshold against the opener, and the rest (those
with similarity below the threshold) are processed recursively.  The
similarity matrix and threshold enter only through `≥` comparisons, so they
are kept generic in a linearly ordered type. -/

section Grouping

variable {α : Type*} [LinearOrder α]

def group_pass (sim : ℕ → ℕ → α) (threshold : α) : List ℕ → List (List ℕ)
  | [] => []
  | i :: rest =>
    (i :: rest.filter (fun j => decide (threshold ≤ sim i j))) ::
      group_pass sim threshold (rest.filter (fun j => !decide (threshold ≤ sim i j)))
termination_by l => l.length
decreasing_by
  simp only [List.length_cons]
  exact Nat.lt_succ_of_le (List.length_filter_le _ _)

/-- `group_by_character`: partition indices `0, …, n-1` by scanning in
increasing order. -/
def group_by_character (sim : ℕ → ℕ → α) (threshold : α) (n : ℕ) :
    List (List ℕ) :=
  group_pass sim threshold (List.range n)

theorem group_pass_elem_mem (sim : ℕ → ℕ → α) (threshold : α) :
    ∀ (l : List ℕ), ∀ g ∈ group_pass sim threshold l, ∀ x ∈ g, x ∈ l := by
  intro l
  induction l using group_pass.induct sim threshold with
  | case1 => simp [group_pass]
  | case2 i rest ih =>
    intro g hg x hx
    rw [group_pass] at hg
    rcases List.mem_cons.1 hg with rfl | hg
    · rcases List.mem_cons.1 hx with rfl | hx
      · exact List.mem_cons_self _ _
      · exact List.mem_cons_of_mem _ (List.mem_of_mem_filter hx)
    · exact List.mem_cons_of_mem _
        (List.mem_of_mem_filter (ih g hg x hx))

theorem group_pass_flatten_perm (sim : ℕ → ℕ → α) (threshold : α) :
    ∀ (l : List ℕ), (group_pass sim threshold l).flatten.Perm l := by
  intro l
  induction l using group_pass.induct sim threshold with
  | case1 => simp [group_pass]
  | case2 i rest ih =>
    rw [group_pass]
    simp only [List.flatten_cons, List.cons_append]
    refine List.Perm.cons i ?_
    exact (List.Perm.append_left _ ih).trans (List.filter_append_perm _ rest)

theorem group_pass_unique (sim : ℕ → ℕ → α) (threshold : α) :
    ∀ (l : List ℕ), l.Nodup → ∀ k ∈ l,
      ∃ g, g ∈ group_pass sim threshold l ∧ k ∈ g ∧
        ∀ g' ∈ group_pass sim threshold l, k ∈ g' → g' = g := by
  intro l
  induction l using group_pass.induct sim threshold with
  | case1 => simp
  | case2 i rest ih =>
    intro hnd k hk
    have hnd' : rest.Nodup := (List.nodup_cons.1 hnd).2
    have hi : i ∉ rest := (List.nodup_cons.1 hnd).1
    rcases List.mem_cons.1 hk with rfl | hk
    · refine ⟨k :: rest.filter (fun j => decide (threshold ≤ sim k j)),
        by rw [group_pass]; exact List.mem_cons_self _ _,
        List.mem_cons_self _ _, ?_⟩
      intro g' hg' hkg'
      rw [group_pass] at hg'
      rcases List.mem_cons.1 hg' with rfl | hg'
      · rfl
      · exfalso
        exact hi (List.mem_of_mem_filter
          (group_pass_elem_mem sim threshold _ g' hg' k hkg'))
    · by_cases hp : threshold ≤ sim i k
      · refine ⟨i :: rest.filter (fun j => decide (threshold ≤ sim i j)),
          by rw [group_pass]; exact List.mem_cons_self _ _,
          List.mem_cons_of_mem _ (List.mem_filter.2 ⟨hk, by simpa using hp⟩), ?_⟩
        intro g' hg' hkg'
        rw [group_pass] at hg'
        rcases List.mem_cons.1 hg' with rfl | hg'
        · rfl
        · exfalso
          have h1 := group_pass_elem_mem sim threshold _ g' hg' k hkg'
          have h2 := (List.mem_filter.1 h1).2
          simp [hp] at h2
      · have hk' : k ∈ rest.filter (fun j => !decide (threshold ≤ sim i j)) :=
          List.mem_filter.2 ⟨hk, by simpa using hp⟩
        obtain ⟨g, hg, hkg, huniq⟩ := ih (hnd'.filter _) k hk'
        refine ⟨g, by rw [group_pass]; exact List.mem_cons_of_mem _ hg, hkg, ?_⟩
        intro g' hg' hkg'
        rw [group_pass] at hg'
        rcases List.mem_cons.1 hg' with rfl | hg'
        · exfalso
          rcases List.mem_cons.1 hkg' with heq | hkg'
          · exact hi (heq ▸ hk)
          · exact hp (by simpa using (List.mem_filter.1 hkg').2)
        · exact huniq g' hg' hkg'

theorem group_pass_opener (sim : ℕ → ℕ → α) (threshold : α) :
    ∀ (l : List ℕ), l.Pairwise (· < ·) →
      ∀ g ∈ group_pass sim threshold l,
        ∃ i tl, g = i :: tl ∧ ∀ j ∈ tl, i < j ∧ threshold ≤ sim i j := by
  intro l
  induction l using group_pass.induct sim threshold with
  | case1 => simp [group_pass]
  | case2 i rest ih =>
    intro hsort g hg
    have hlt : ∀ j ∈ rest, i < j := fun j hj =>
      List.rel_of_pairwise_cons hsort hj
    rw [group_pass] at hg
    rcases List.mem_cons.1 hg with rfl | hg
    · refine ⟨i, _, rfl, ?_⟩
      intro j hj
      have h1 := List.mem_filter.1 hj
      exact ⟨hlt j h1.1, by simpa using h1.2⟩
    · exact ih ((List.pairwise_cons.1 hsort).2.filter _) g hg

theorem group_pass_complete (sim : ℕ → ℕ → α) (threshold : α) :
    ∀ (l : List ℕ), l.Pairwise (· < ·) →
      ∀ g ∈ group_pass sim threshold l, ∀ j ∈ l,
        g.headI < j → threshold ≤ sim g.headI j →
          j ∈ g ∨ ∃ g' ∈ group_pass sim threshold l,
            j ∈ g' ∧ g'.headI < g.headI := by
  intro l
  induction l using group_pass.induct sim threshold with
  | case1 => simp [group_pass]
  | case2 i rest ih =>
    intro hsort g hg j hj hlt hsim
    have hrest : ∀ x ∈ rest, i < x := fun x hx =>
      List.rel_of_pairwise_cons hsort hx
    have hsort' : rest.Pairwise (· < ·) := (List.pairwise_cons.1 hsort).2
    set g₀ : List ℕ := i :: rest.filter (fun j => decide (threshold ≤ sim i j))
      with hg₀
    have hg₀mem : g₀ ∈ group_pass sim threshold (i :: rest) := by
      rw [group_pass]; exact List.mem_cons_self _ _
    rw [group_pass] at hg
    rcases List.mem_cons.1 hg with rfl | hg
    · -- g is the first group, opened by i
      left
      have hjrest : j ∈ rest := by
        rcases List.mem_cons.1 hj with rfl | h
        · exact absurd hlt (lt_irrefl _)
        · exact h
      exact List.mem_cons_of_mem _
        (List.mem_filter.2 ⟨hjrest, by simpa using hsim⟩)
    · -- g is a later group; its opener is an element of the filtered rest
      obtain ⟨i', tl, rfl, _⟩ := group_pass_opener sim threshold _
        (hsort'.filter _) _ hg
      have hi'mem : i' ∈ rest :=
        List.mem_of_mem_filter (group_pass_elem_mem sim threshold _ _ hg i'
          (List.mem_cons_self _ _))
      have hii' : i < i' := hrest i' hi'mem
      rcases List.mem_cons.1 hj with rfl | hjrest
      · -- j = i is in the first group
        exact Or.inr ⟨g₀, hg₀mem, List.mem_cons_self _ _, hii'⟩
      · by_cases hp : threshold ≤ sim i j
        · exact Or.inr ⟨g₀, hg₀mem,
            List.mem_cons_of_mem _ (List.mem_filter.2 ⟨hjrest, by simpa using hp⟩),
            hii'⟩
        · have hj' : j ∈ rest.filter (fun j => !decide (threshold ≤ sim i j)) :=
            List.mem_filter.2 ⟨hjrest, by simpa using hp⟩
          rcases ih (hsort'.filter _) _ hg j hj' hlt hsim with h | ⟨g', hg', hjg', hlt'⟩
          · exact Or.inl h
          · exact Or.inr ⟨g', by rw [group_pass]; exact List.mem_cons_of_mem _ hg',
              hjg', hlt'⟩

/-- The property asserted by claim C3: the groups partition the indices
(each index appears in exactly one group); each group consists of an opener
followed by strictly larger indices whose similarity *to the opener* meets
the threshold; and any in-range index above a group's opener that meets the
opener's threshold either joined that group or was already assigned to a
group with a smaller opener. -/
def GroupingSpec (sim : ℕ → ℕ → α) (threshold : α) (n : ℕ) : Prop :=
  ((group_by_character sim threshold n).flatten.Perm (List.range n))
  ∧ (∀ k, k < n → ∃ g, g ∈ group_by_character sim threshold n ∧ k ∈ g ∧
      ∀ g' ∈ group_by_character sim threshold n, k ∈ g' → g' = g)
  ∧ (∀ g ∈ group_by_character sim threshold n,
      ∃ i tl, g = i :: tl ∧ ∀ j ∈ tl, i < j ∧ threshold ≤ sim i j)
  ∧ (∀ g ∈ group_by_character sim threshold n, ∀ j, j < n →
      g.headI < j → threshold ≤ sim g.headI j →
        j ∈ g ∨ ∃ g' ∈ group_by_character sim threshold n,
          j ∈ g' ∧ g'.headI < g.headI)

/-- C3: threshold grouping scans indices in increasing order, an unassigned
index opens a group, later unassigned indices join exactly when their
similarity to the opener meets the threshold, and every index ends up in
exactly one group. -/
theorem group_by_character_correct (sim : ℕ → ℕ → α) (threshold : α)
    (n : ℕ) : GroupingSpec sim threshold n := by
  refine ⟨group_pass_flatten_perm sim threshold _, ?_, ?_, ?_⟩
  · intro k hk
    exact group_pass_unique sim threshold _ (List.nodup_range n) k
      (List.mem_range.2 hk)
  · exact group_pass_opener sim threshold _ (List.pairwise_lt_range n)
  · intro g hg j hj
    exact group_pass_complete sim threshold _ (List.pairwise_lt_range n)
      g hg j (List.mem_range.2 hj)

end Grouping

/-- Witness for C3 at a concrete rational similarity function with
threshold 1 and three indices. -/
theorem group_by_character_correct_witness :
    GroupingSpec (fun i j => ((i + j : ℕ) : ℚ)) 1 3 :=
  group_by_character_correct (fun i j => ((i + j : ℕ) : ℚ)) 1 3

/-! ## AnomalyDetector (`DINOv3Service.detect_anomalies`)

`np.mean`/`np.std` over the reference set are taken per dimension (axis 0);
`np.std` is the population standard deviation.  The Python loop
`for i, test_feat in enumerate(test_features)` is embedded as a map over
`List.range test_features.length`. -/

noncomputable section

/-- `np.mean(ref_array, axis=0)` at dimension `j`. -/
def ref_mean (reference_features : List (List ℝ)) (j : ℕ) : ℝ :=
  ((reference_features.map (fun v => v.getD j 0)).sum) / reference_features.length

/-- Population variance of the reference set at dimension `j`
(the square of `np.std(ref_array, axis=0)`). -/
def ref_var (reference_features : List (List ℝ)) (j : ℕ) : ℝ :=
  ((reference_features.map
    (fun v => (v.getD j 0 - ref_mean reference_features j) ^ 2)).sum)
    / reference_features.length

/-- `np.std(ref_array, axis=0)` at dimension `j`. -/
def ref_std (reference_features : List (List ℝ)) (j : ℕ) : ℝ :=
  Real.sqrt (ref_var reference_features j)

/-- The reference centroid `ref_mean` as a vector (its length is the
common dimension of the reference vectors). -/
def ref_mean_vec (reference_features : List (List ℝ)) : List ℝ :=
  (List.range reference_features.headI.length).map (ref_mean reference_features)

/-- One entry of `np.abs((test_feat - ref_mean) / (ref_std + 1e-8))`. -/
def anomaly_z (reference_features : List (List ℝ)) (t : List ℝ) (j : ℕ) : ℝ :=
  |(t.getD j 0 - ref_mean reference_features j)
    / (ref_std reference_features j + 1 / 100000000)|

/-- `float(np.mean(z_scores))`. -/
def anomaly_score (reference_features : List (List ℝ)) (t : List ℝ) : ℝ :=
  (((List.range t.length).map (anomaly_z reference_features t)).sum) / t.length

/-- One record of the list returned by `detect_anomalies`. -/
structure AnomalyVerdict where
  index : ℕ
  anomaly_score : ℝ
  centroid_similarity : ℝ
  is_anomaly : Bool
  confidence : ℝ

instance : Inhabited AnomalyVerdict := ⟨⟨0, 0, 0, false, 0⟩⟩

/-- `DINOv3Service.detect_anomalies`. -/
def detect_anomalies (reference_features test_features : List (List ℝ)) :
    List AnomalyVerdict :=
  (List.range test_features.length).map (fun i =>
    let t := test_features.getD i []
    let score := anomaly_score reference_features t
    let cs := cosine_similarity t (ref_mean_vec reference_features)
    ⟨i, score, cs, decide (2 < score ∨ cs < 1 / 2), min (score / 3) 1⟩)

theorem anomaly_score_nonneg (refs : List (List ℝ)) (t : List ℝ) :
    0 ≤ anomaly_score refs t := by
  unfold anomaly_score
  apply div_nonneg _ (Nat.cast_nonneg _)
  apply List.sum_nonneg
  intro x hx
  obtain ⟨j, _, rfl⟩ := List.mem_map.1 hx
  exact abs_nonneg _

theorem anomaly_z_eq (refs : List (List ℝ)) (t : List ℝ) (j : ℕ) :
    anomaly_z refs t j
      = |t.getD j 0 - ref_mean refs j| / (ref_std refs j + 1 / 100000000) := by
  have h : 0 < ref_std refs j + 1 / 100000000 := by
    have h0 := Real.sqrt_nonneg (ref_var refs j)
    unfold ref_std
    linarith
  unfold anomaly_z
  rw [abs_div, abs_of_pos h]

theorem anomaly_example_score :
    anomaly_score [[(0 : ℝ), 0], [2, 0]] [10, 0]
      = 9 / (2 * (1 + 1 / 100000000)) := by
  have hm0 : ref_mean [[(0 : ℝ), 0], [2, 0]] 0 = 1 := by
    norm_num [ref_mean]
  have hm1 : ref_mean [[(0 : ℝ), 0], [2, 0]] 1 = 0 := by
    norm_num [ref_mean]
  have hv0 : ref_var [[(0 : ℝ), 0], [2, 0]] 0 = 1 := by
    norm_num [ref_var, hm0]
  have hv1 : ref_var [[(0 : ℝ), 0], [2, 0]] 1 = 0 := by
    norm_num [ref_var, hm1]
  have hs0 : ref_std [[(0 : ℝ), 0], [2, 0]] 0 = 1 := by
    rw [ref_std, hv0, Real.sqrt_one]
  have hs1 : ref_std [[(0 : ℝ), 0], [2, 0]] 1 = 0 := by
    rw [ref_std, hv1, Real.sqrt_zero]
  unfold anomaly_score
  norm_num [List.range_succ, anomaly_z, hm0, hm1, hs0, hs1, abs_of_nonneg,
    div_nonneg]

theorem anomaly_example_head :
    (detect_anomalies [[(0 : ℝ), 0], [2, 0]] [[10, 0]]).headI
      = ⟨0, anomaly_score [[(0 : ℝ), 0], [2, 0]] [10, 0],
          cosine_similarity [10, 0] (ref_mean_vec [[(0 : ℝ), 0], [2, 0]]),
          decide (2 < anomaly_score [[(0 : ℝ), 0], [2, 0]] [10, 0]
            ∨ cosine_similarity [10, 0] (ref_mean_vec [[(0 : ℝ), 0], [2, 0]])
              < 1 / 2),
          min (anomaly_score [[(0 : ℝ), 0], [2, 0]] [10, 0] / 3) 1⟩ := by
  simp [detect_anomalies, List.range_succ]

/-- The per-verdict property asserted by claim C4: the anomaly score is the
dimension-wise mean of `|test − refMean| / (refStd + 1e-8)`, the centroid
similarity is the cosine against the reference mean vector, the anomaly flag
is `score > 2 ∨ centroidSimilarity < 0.5`, the score is nonnegative, and the
confidence equals `clamp(score / 3, 0, 1)` (the code computes
`min(score / 3, 1)`, which coincides with the clamp because the score is a
mean of absolute values, hence nonnegative). -/
def AnomalyDetectionSpec (refs tests : List (List ℝ)) : Prop :=
  (detect_anomalies refs tests).length = tests.length
  ∧ ∀ v ∈ detect_anomalies refs tests,
      v.anomaly_score =
        (((List.range (tests.getD v.index []).length).map (fun j =>
          |(tests.getD v.index []).getD j 0 - ref_mean refs j|
            / (ref_std refs j + 1 / 100000000))).sum)
          / (tests.getD v.index []).length
      ∧ v.centroid_similarity
          = cosine_similarity (tests.getD v.index []) (ref_mean_vec refs)
      ∧ (v.is_anomaly = true
          ↔ (2 < v.anomaly_score ∨ v.centroid_similarity < 1 / 2))
      ∧ 0 ≤ v.anomaly_score
      ∧ v.confidence = max 0 (min (v.anomaly_score / 3) 1)

/-- The spec's example, with the value the code actually computes: for
reference set `{[0,0], [2,0]}` and test vector `[10,0]` the anomaly score is
`9 / (2(1 + 1e-8)) ≈ 4.5` — not ≈ 9 — and the vector is still flagged as an
anomaly. -/
def AnomalyExampleFact : Prop :=
  (449 / 100
      < (detect_anomalies [[(0 : ℝ), 0], [2, 0]] [[10, 0]]).headI.anomaly_score
    ∧ (detect_anomalies [[(0 : ℝ), 0], [2, 0]] [[10, 0]]).headI.anomaly_score
      < 9 / 2)
  ∧ (detect_anomalies [[(0 : ℝ), 0], [2, 0]] [[10, 0]]).headI.is_anomaly = true

/-- C4 (amended): every verdict satisfies the documented formulas, and the
spec's concrete example yields score ≈ 4.5 (not ≈ 9) with `isAnomaly` true. -/
theorem detect_anomalies_correct (refs tests : List (List ℝ))
    (_h2 : 2 ≤ refs.length) :
    AnomalyDetectionSpec refs tests ∧ AnomalyExampleFact := by
  constructor
  · constructor
    · simp [detect_anomalies]
    · intro v hv
      obtain ⟨i, hi, rfl⟩ := List.mem_map.1 hv
      refine ⟨?_, rfl, ?_, anomaly_score_nonneg _ _, ?_⟩
      · show anomaly_score refs (tests.getD i []) = _
        unfold anomaly_score
        rw [show anomaly_z refs (tests.getD i [])
            = fun j => |(tests.getD i []).getD j 0 - ref_mean refs j|
              / (ref_std refs j + 1 / 100000000) from
          funext fun j => anomaly_z_eq refs (tests.getD i []) j]
      · show decide _ = true ↔ _
        simp
      · show min _ _ = max 0 (min (anomaly_score refs (tests.getD i []) / 3) 1)
        rw [max_eq_right]
        exact le_min (div_nonneg (anomaly_score_nonneg _ _) (by norm_num))
          zero_le_one
  · constructor
    · rw [anomaly_example_head]
      show 449 / 100 < anomaly_score _ _ ∧ anomaly_score _ _ < 9 / 2
      rw [anomaly_example_score]
      constructor <;> norm_num
    · rw [anomaly_example_head]
      show decide _ = true
      rw [decide_eq_true_eq]
      left
      rw [anomaly_example_score]
      norm_num

/-- Witness for C4 (amended) at the spec's own reference/test sets. -/
theorem detect_anomalies_correct_witness :
    AnomalyDetectionSpec [[(0 : ℝ), 0], [2, 0]] [[10, 0]] ∧ AnomalyExampleFact :=
  detect_anomalies_correct [[(0 : ℝ), 0], [2, 0]] [[10, 0]] (by decide)

/-- Counterexample to C4 as stated: on the spec's example the anomaly score
computed by the code is below 5 and more than 4 away from 9, so it is not
"approximately 9" (`np.mean` averages the z-scores over both dimensions,
and the second dimension contributes z = 0). -/
theorem detect_anomalies_score_counterexample :
    (detect_anomalies [[(0 : ℝ), 0], [2, 0]] [[10, 0]]).headI.anomaly_score < 5
    ∧ |(detect_anomalies [[(0 : ℝ), 0], [2, 0]] [[10, 0]]).headI.anomaly_score
        - 9| > 4 := by
  rw [anomaly_example_head]
  show anomaly_score _ _ < 5 ∧ |anomaly_score _ _ - 9| > 4
  rw [anomaly_example_score]
  constructor
  · norm_num
  · rw [abs_sub_comm, abs_of_pos (by norm_num)]
    norm_num

/-! ## Analytics router (`anomaly_detection`, src/app/routers/analytics.py)

The route collects the reference and test feature vectors, rejects the
request with HTTP 400 "At least 2 reference assets with features required"
when fewer than two reference vectors were found, rejects it with "No test
assets with features found" when no test vectors were found, and otherwise
calls `detect_anomalies` (without the request's `anomaly_threshold`, which
is only echoed back in the response). -/

inductive AnalyticsError where
  | insufficient_reference_data
  | no_test_assets
deriving DecidableEq

structure AnomalyDetectionResponse where
  reference_assets : ℕ
  test_assets : ℕ
  anomaly_threshold : ℝ
  anomalies_detected : ℕ
  anomaly_results : List AnomalyVerdict

/-- The `anomaly_detection` route, from the point where the feature vectors
have been collected from the database. -/
def anomaly_detection (reference_features test_features : List (List ℝ))
    (anomaly_threshold : ℝ) : Except AnalyticsError AnomalyDetectionResponse :=
  if reference_features.length < 2 then
    .error .insufficient_reference_data
  else if test_features.length = 0 then
    .error .no_test_assets
  else
    let results := detect_anomalies reference_features test_features
    .ok ⟨reference_features.length, test_features.length, anomaly_threshold,
      (results.filter (fun r => r.is_anomaly)).length, results⟩

/-- C8: the route fails with the insufficient-reference-data error exactly
when fewer than two reference vectors are available (in particular for a
single reference vector), and never fails with that error otherwise. -/
theorem anomaly_detection_insufficient_iff
    (refs tests : List (List ℝ)) (threshold : ℝ) :
    anomaly_detection refs tests threshold
        = Except.error AnalyticsError.insufficient_reference_data
      ↔ refs.length < 2 := by
  unfold anomaly_detection
  by_cases h : refs.length < 2
  · simp [h]
  · simp only [h, if_false]
    by_cases h2 : tests.length = 0 <;> simp [h2]

/-- C10: two requests differing only in `anomaly_threshold` get identical
verdict lists and identical summary counts; the threshold is merely echoed
back, and every verdict's `is_anomaly` flag is computed against the fixed
constant 2.0 (and centroid-similarity cutoff 0.5), never against the
request's threshold. -/
theorem anomaly_threshold_noninterference
    (refs tests : List (List ℝ)) (t1 t2 : ℝ) :
    ((anomaly_detection refs tests t1).map (fun r => r.anomaly_results)
      = (anomaly_detection refs tests t2).map (fun r => r.anomaly_results))
    ∧ ((anomaly_detection refs tests t1).map (fun r => r.anomalies_detected)
      = (anomaly_detection refs tests t2).map (fun r => r.anomalies_detected))
    ∧ ((anomaly_detection refs tests t1).map (fun r => r.anomaly_threshold)
      = (anomaly_detection refs tests t1).map (fun _ => t1))
    ∧ ((detect_anomalies refs tests).map (fun v => v.is_anomaly)
      = (detect_anomalies refs tests).map (fun v =>
          decide (2 < v.anomaly_score ∨ v.centroid_similarity < 1 / 2))) := by
  refine ⟨?_, ?_, ?_, ?_⟩
  · unfold anomaly_detection
    by_cases h : refs.length < 2
    · simp [h, Except.map]
    · by_cases h2 : tests.length = 0 <;> simp [h, h2, Except.map]
  · unfold anomaly_detection
    by_cases h : refs.length < 2
    · simp [h, Except.map]
    · by_cases h2 : tests.length = 0 <;> simp [h, h2, Except.map]
  · unfold anomaly_detection
    by_cases h : refs.length < 2
    · simp [h, Except.map]
    · by_cases h2 : tests.length = 0 <;> simp [h, h2, Except.map]
  · apply List.map_congr_left
    intro v hv
    obtain ⟨i, hi, rfl⟩ := List.mem_map.1 hv
    rfl

/-! ## QualityScorer (`DINOv3Service.analyze_quality`)

On a non-empty vector every statistic is defined and the function returns
the metrics dict.  On an empty vector `np.mean`/`np.std` merely produce
NaN, but `np.max` raises `ValueError: zero-size array to reduction
operation`, so the call fails; this numpy failure is the concrete
realisation of the spec's InvalidInput error and is modelled with
`Except`. -/

inductive NumpyError where
  | zero_size_reduction
deriving DecidableEq

/-- `np.max`: fails on an empty array. -/
def np_max : List ℝ → Except NumpyError ℝ
  | [] => .error .zero_size_reduction
  | x :: xs => .ok (xs.foldl max x)

/-- `np.min`: fails on an empty array. -/
def np_min : List ℝ → Except NumpyError ℝ
  | [] => .error .zero_size_reduction
  | x :: xs => .ok (xs.foldl min x)

/-- `np.mean` of a flat array. -/
def np_mean (l : List ℝ) : ℝ := l.sum / l.length

/-- `np.std` of a flat array (population standard deviation). -/
def np_std_scalar (l : List ℝ) : ℝ :=
  Real.sqrt (((l.map (fun x => (x - np_mean l) ^ 2)).sum) / l.length)

/-- `np.linalg.norm` of a flat array. -/
def np_norm (l : List ℝ) : ℝ := Real.sqrt (dot l l)

/-- The dict returned by `analyze_quality`. -/
structure QualityMetrics where
  quality_score : ℝ
  diversity_score : ℝ
  feature_mean : ℝ
  feature_std : ℝ
  feature_max : ℝ
  feature_min : ℝ

/-- `DINOv3Service.analyze_quality`:
diversity = std / (|mean| + 1e-8), magnitude = ‖v‖ / len(v),
score = clamp(0.6·diversity + 0.4·magnitude, 0, 1). -/
def analyze_quality (features : List ℝ) : Except NumpyError QualityMetrics :=
  let feature_mean := np_mean features
  let feature_std := np_std_scalar features
  do
    let feature_max ← np_max features
    let feature_min ← np_min features
    let diversity_score := feature_std / (|feature_mean| + 1 / 100000000)
    let magnitude_score := np_norm features / features.length
    let raw_score := diversity_score * (6 / 10) + magnitude_score * (4 / 10)
    let quality_score := min (max raw_score 0) 1
    return ⟨quality_score, diversity_score, feature_mean, feature_std,
      feature_max, feature_min⟩

/-- The property asserted by claim C7: quality analysis fails on the empty
vector (the spec's InvalidInput, realised as numpy's zero-size reduction
error) and returns a report without error on every non-empty vector. -/
def QualityAnalysisSpec : Prop :=
  (∃ e, analyze_quality ([] : List ℝ) = Except.error e)
  ∧ ∀ features : List ℝ, features ≠ [] →
      ∃ m, analyze_quality features = Except.ok m

/-- C7: `analyze_quality` fails exactly on the empty feature vector. -/
theorem analyze_quality_total : QualityAnalysisSpec := by
  constructor
  · exact ⟨NumpyError.zero_size_reduction, rfl⟩
  · intro features hne
    match features, hne with
    | x :: xs, _ => exact ⟨_, rfl⟩

/-- Witness for C7 on the concrete non-empty vector [1]. -/
theorem analyze_quality_total_witness :
    ∃ m, analyze_quality [(1 : ℝ)] = Except.ok m :=
  analyze_quality_total.2 [(1 : ℝ)] (by simp)

/-! ## FeatureClusterer (`DINOv3Service.cluster_features`)

The K-means fit itself (`KMeans(n_clusters, random_state=42,
n_init=10).fit_predict`) is an external scikit-learn collaborator; it is
embedded as an explicit labelling-function parameter `kmeans_labels`.
scikit-learn returns one label per sample, each in `[0, k)`, and (for
`n_samples ≥ n_clusters`) relocates empty clusters so every label occurs;
those guarantees appear as hypotheses of the theorem.  Everything after
`fit_predict` — the default-k heuristic, the per-cluster masks, sizes,
centroids, inertias, and the skipping of empty clusters — is translated
from the source. -/

structure ClusterStat where
  cluster_id : ℕ
  size : ℕ
  centroid : List ℝ
  inertia : ℝ

structure ClusteringResult where
  cluster_labels : List ℕ
  n_clusters : ℕ
  cluster_stats : List ClusterStat

/-- `features_array[cluster_labels == i]`. -/
def cluster_members (features_list : List (List ℝ)) (labels : List ℕ)
    (i : ℕ) : List (List ℝ) :=
  ((features_list.zip labels).filter (fun p => p.2 == i)).map (fun p => p.1)

/-- `np.mean(cluster_features, axis=0)`. -/
def centroid_of (members : List (List ℝ)) : List ℝ :=
  (List.range members.headI.length).map (fun j =>
    ((members.map (fun v => v.getD j 0)).sum) / members.length)

/-- `np.mean([np.linalg.norm(feat - centroid) for feat in cluster_features])`. -/
def cluster_inertia (members : List (List ℝ)) : ℝ :=
  ((members.map (fun v =>
    np_norm (List.zipWith (fun a b => a - b) v (centroid_of members)))).sum)
    / members.length

/-- One entry of `cluster_stats`; its `size` is `int(np.sum(cluster_mask))`,
the number of labels equal to `i`. -/
def cluster_stat (features_list : List (List ℝ)) (labels : List ℕ)
    (i : ℕ) : ClusterStat :=
  ⟨i, labels.count i, centroid_of (cluster_members features_list labels i),
    cluster_inertia (cluster_members features_list labels i)⟩

/-- `DINOv3Service.cluster_features`: chooses
`k = min(max(N // 10, 2), 10)` when no cluster count is given, labels the
inputs with K-means, and reports per-cluster statistics for the non-empty
clusters. -/
def cluster_features (features_list : List (List ℝ)) (n_clusters : Option ℕ)
    (kmeans_labels : ℕ → List (List ℝ) → List ℕ) : ClusteringResult :=
  let k := match n_clusters with
    | some k => k
    | none => min (max (features_list.length / 10) 2) 10
  let labels := kmeans_labels k features_list
  ⟨labels, k,
    (List.range k).filterMap (fun i =>
      if 0 < (cluster_members features_list labels i).length then
        some (cluster_stat features_list labels i)
      else none)⟩

theorem filterMap_ite_eq_map {β γ : Type*} (p : β → Prop) [DecidablePred p]
    (f : β → γ) :
    ∀ (l : List β), (∀ x ∈ l, p x) →
      (l.filterMap (fun x => if p x then some (f x) else none)) = l.map f := by
  intro l
  induction l with
  | nil => simp
  | cons x xs ih =>
    intro h
    rw [List.filterMap_cons, if_pos (h x (List.mem_cons_self _ _)), List.map_cons,
      ih (fun y hy => h y (List.mem_cons_of_mem _ hy))]

theorem count_filter_zip {β : Type*} (i : ℕ) :
    ∀ (fs : List β) (ls : List ℕ), fs.length = ls.length →
      ((fs.zip ls).filter (fun p => p.2 == i)).length = ls.count i := by
  intro fs
  induction fs with
  | nil =>
    intro ls h
    have hls : ls = [] := List.length_eq_zero.1 h.symm
    subst hls
    simp
  | cons x xs ih =>
    intro ls h
    cases ls with
    | nil => simp at h
    | cons y ys =>
      have h' : xs.length = ys.length := by simpa using h
      rw [List.zip_cons_cons, List.filter_cons, List.count_cons]
      by_cases hy : y = i
      · subst hy
        simp [ih ys h']
      · have hb : ((x, y).2 == i) = false := by simpa using hy
        have hb2 : (i == y) = false := beq_eq_false_iff_ne.2 (Ne.symm hy)
        rw [hb]
        simp [hb2, ih ys h']

theorem cluster_members_length (i : ℕ) (fs : List (List ℝ)) (ls : List ℕ)
    (h : fs.length = ls.length) :
    (cluster_members fs ls i).length = ls.count i := by
  unfold cluster_members
  rw [List.length_map]
  exact count_filter_zip i fs ls h

theorem list_sum_range {M : Type*} [AddCommMonoid M] (f : ℕ → M) (k : ℕ) :
    ((List.range k).map f).sum = ∑ j ∈ Finset.range k, f j := by
  induction k with
  | zero => simp
  | succ k ih =>
    rw [List.range_succ, List.map_append, List.sum_append,
      Finset.sum_range_succ, ih]
    simp

theorem sum_counts_eq_length (k : ℕ) :
    ∀ (ls : List ℕ), (∀ x ∈ ls, x < k) →
      (∑ j ∈ Finset.range k, ls.count j) = ls.length := by
  intro ls
  induction ls with
  | nil => simp
  | cons x xs ih =>
    intro h
    have hx : x < k := h x (List.mem_cons_self _ _)
    have hxs : ∀ y ∈ xs, y < k := fun y hy => h y (List.mem_cons_of_mem _ hy)
    simp only [List.count_cons, List.length_cons]
    rw [Finset.sum_add_distrib, ih hxs]
    have hsum : (∑ j ∈ Finset.range k, if x == j then 1 else 0)
        = (∑ j ∈ Finset.range k, if j = x then 1 else 0) := by
      refine Finset.sum_congr rfl fun j _ => ?_
      by_cases hj : j = x
      · simp [hj]
      · simp [hj, beq_eq_false_iff_ne.2 (Ne.symm hj)]
    rw [hsum, Finset.sum_ite_eq' (Finset.range k) x (fun _ => 1)]
    simp [Finset.mem_range.2 hx]

/-- The property asserted by claim C6: with no cluster count the default is
`k = clamp(N // 10, 2, 10)`; with an explicit `k`, whenever the K-means
labelling assigns every input one label in `[0, k)` and each of the `k`
labels occurs, the result has exactly `k` ClusterStats, their sizes sum to
`N`, and every input carries exactly one label. -/
def ClusteringSpec (features_list : List (List ℝ))
    (kmeans_labels : ℕ → List (List ℝ) → List ℕ) : Prop :=
  ((cluster_features features_list none kmeans_labels).n_clusters
      = min (max (features_list.length / 10) 2) 10)
  ∧ ∀ k : ℕ,
      (kmeans_labels k features_list).length = features_list.length →
      (∀ l ∈ kmeans_labels k features_list, l < k) →
      (∀ j, j < k → j ∈ kmeans_labels k features_list) →
      (cluster_features features_list (some k) kmeans_labels).cluster_stats.length
          = k
      ∧ ((cluster_features features_list (some k) kmeans_labels).cluster_stats.map
          (fun s => s.size)).sum = features_list.length
      ∧ (cluster_features features_list (some k) kmeans_labels).cluster_labels.length
          = features_list.length

/-- C6: default cluster count and explicit-k cluster statistics of
`cluster_features`. -/
theorem cluster_features_correct (features_list : List (List ℝ))
    (kmeans_labels : ℕ → List (List ℝ) → List ℕ)
    (_h2 : 2 ≤ features_list.length) :
    ClusteringSpec features_list kmeans_labels := by
  constructor
  · rfl
  · intro k hlen hlt hsurj
    have hpos : ∀ i ∈ List.range k,
        0 < (cluster_members features_list
          (kmeans_labels k features_list) i).length := by
      intro i hi
      rw [cluster_members_length i features_list _ hlen.symm]
      exact List.count_pos_iff.2 (hsurj i (List.mem_range.1 hi))
    have hstats : (cluster_features features_list (some k)
        kmeans_labels).cluster_stats
        = (List.range k).map
            (cluster_stat features_list (kmeans_labels k features_list)) := by
      show (List.range k).filterMap _ = _
      exact filterMap_ite_eq_map _ _ (List.range k) hpos
    refine ⟨?_, ?_, hlen⟩
    · rw [hstats, List.length_map, List.length_range]
    · rw [hstats, List.map_map]
      have hcomp : ((fun s : ClusterStat => s.size) ∘
          cluster_stat features_list (kmeans_labels k features_list))
          = fun i => (kmeans_labels k features_list).count i := rfl
      rw [hcomp, list_sum_range, sum_counts_eq_length k _ hlt, hlen]

/-- Witness for C6 on three 1-dimensional vectors with an explicit k = 3
and the labelling [0, 1, 2]: exactly 3 stats, sizes summing to 3. -/
theorem cluster_features_correct_witness :
    (cluster_features [[(0 : ℝ)], [1], [5]] (some 3)
        (fun _ _ => [0, 1, 2])).cluster_stats.length = 3
    ∧ ((cluster_features [[(0 : ℝ)], [1], [5]] (some 3)
        (fun _ _ => [0, 1, 2])).cluster_stats.map (fun s => s.size)).sum = 3
    ∧ (cluster_features [[(0 : ℝ)], [1], [5]] (some 3)
        (fun _ _ => [0, 1, 2])).cluster_labels.length = 3 :=
  (cluster_features_correct [[(0 : ℝ)], [1], [5]] (fun _ _ => [0, 1, 2])
    (by decide)).2 3 (by decide) (by decide) (by decide)

end

/-! ## ShotSegmenter (`analyze_video_shots`, src/app/routers/video_analysis.py)

The frame-difference scan of `analyze_video_shots` (lines 140-212).  Frame
retrieval (`video.get_frame`) and the grayscale mean-absolute-difference
(`np.mean(cv2.absdiff(...)) / 255`) are collaborator calls, embedded as the
parameters `get_frame` and `frame_diff`; `frame_diff` receives the current
frame first, matching `cv2.absdiff(frame_gray, prev_frame)`.  Timestamps
are exact rationals: `np.arange(0, duration, step)` yields `k * step` for
`0 <= k < ceil(duration / step)`, and Python's `int()` truncation on the
positive `fps / 2` is the floor.  A sampled timestamp is appended as a
boundary when the difference against the immediately preceding sample
exceeds the threshold; the first sample (t = 0) only initialises
`prev_frame`.  The per-shot loop skips pairs of consecutive boundaries
closer than 0.5 s (dropped, not merged).
-/

/-- `sample_interval = max(1, int(fps / 2))`. -/
def sample_interval (fps : ℚ) : ℤ := max 1 ⌊fps / 2⌋

/-- The `np.arange` step `1/fps * sample_interval`. -/
def sample_step (fps : ℚ) : ℚ := 1 / fps * (sample_interval fps : ℚ)

/-- The number of samples of `np.arange(0, duration, step)`. -/
def sample_count (fps duration : ℚ) : ℕ :=
  (⌈duration / sample_step fps⌉).toNat

/-- The sampled timestamps `np.arange(0, duration, 1/fps * sample_interval)`. -/
def sample_times (fps duration : ℚ) : List ℚ :=
  (List.range (sample_count fps duration)).map
    (fun k : ℕ => (k : ℚ) * sample_step fps)

/-- The boundary list: starts at 0, appends each sampled timestamp whose
frame difference against the previous sample exceeds the threshold, and
ends at `duration`. -/
def shot_boundaries {F : Type*} (get_frame : ℚ → F)
    (frame_diff : F → F → ℚ) (threshold fps duration : ℚ) : List ℚ :=
  let ts := sample_times fps duration
  0 :: ((ts.zip ts.tail).filter (fun p =>
      threshold < frame_diff (get_frame p.2) (get_frame p.1))).map
        (fun p => p.2)
    ++ [duration]

structure ShotInterval where
  start_timestamp : ℚ
  end_timestamp : ℚ
deriving DecidableEq

/-- The per-boundary-pair loop: skips pairs closer than 0.5 s. -/
def shots_of_boundaries : List ℚ → List ShotInterval
  | a :: b :: rest =>
    if b - a < 1 / 2 then shots_of_boundaries (b :: rest)
    else ⟨a, b⟩ :: shots_of_boundaries (b :: rest)
  | _ => []

def analyze_video_shots {F : Type*} (get_frame : ℚ → F)
    (frame_diff : F → F → ℚ) (threshold fps duration : ℚ) :
    List ShotInterval :=
  shots_of_boundaries (shot_boundaries get_frame frame_diff threshold fps duration)

theorem sample_step_pos {fps : ℚ} (hfps : 0 < fps) : 0 < sample_step fps := by
  unfold sample_step sample_interval
  have h1 : (1 : ℤ) ≤ max 1 ⌊fps / 2⌋ := le_max_left _ _
  have h2 : (1 : ℚ) ≤ ((max 1 ⌊fps / 2⌋ : ℤ) : ℚ) := by exact_mod_cast h1
  positivity

theorem sample_times_sorted (fps duration : ℚ) (hfps : 0 < fps) :
    (sample_times fps duration).Pairwise (· < ·) := by
  unfold sample_times
  exact List.Pairwise.map (fun k : ℕ => (k : ℚ) * sample_step fps)
    (fun a b hab => mul_lt_mul_of_pos_right (by exact_mod_cast hab)
      (sample_step_pos hfps))
    (List.pairwise_lt_range _)

theorem sample_times_elem (fps duration : ℚ) (hfps : 0 < fps) :
    ∀ x ∈ sample_times fps duration, 0 ≤ x ∧ x < duration := by
  intro x hx
  obtain ⟨k, hk, rfl⟩ := List.mem_map.1 hx
  have hk' : k < sample_count fps duration := List.mem_range.1 hk
  have hstep := sample_step_pos hfps
  constructor
  · positivity
  · have hk2 : k < (⌈duration / sample_step fps⌉).toNat := by
      simpa [sample_count] using hk'
    have h1 : (k : ℤ) < ⌈duration / sample_step fps⌉ := Int.lt_toNat.1 hk2
    have h2 : (k : ℚ) < duration / sample_step fps := by
      exact_mod_cast Int.lt_ceil.1 h1
    calc (k : ℚ) * sample_step fps
        < duration / sample_step fps * sample_step fps :=
          mul_lt_mul_of_pos_right h2 hstep
      _ = duration := div_mul_cancel₀ _ (ne_of_gt hstep)

theorem zip_tail_pairs {α : Type*} (R : α → α → Prop) :
    ∀ (l : List α), l.Pairwise R →
      ∀ p ∈ l.zip l.tail, R p.1 p.2 ∧ p.1 ∈ l ∧ p.2 ∈ l := by
  intro l
  induction l with
  | nil => simp
  | cons a rest ih =>
    intro hp p hmem
    cases rest with
    | nil => simp at hmem
    | cons b rest2 =>
      rw [show (a :: b :: rest2).tail = b :: rest2 from rfl,
        List.zip_cons_cons] at hmem
      rcases List.mem_cons.1 hmem with rfl | hmem
      · exact ⟨List.rel_of_pairwise_cons hp (List.mem_cons_self _ _),
          List.mem_cons_self _ _,
          List.mem_cons_of_mem _ (List.mem_cons_self _ _)⟩
      · have hmem' : p ∈ (b :: rest2).zip (b :: rest2).tail := hmem
        obtain ⟨h1, h2, h3⟩ := ih (List.pairwise_cons.1 hp).2 p hmem'
        exact ⟨h1, List.mem_cons_of_mem _ h2, List.mem_cons_of_mem _ h3⟩

theorem map_snd_zip_tail {α : Type*} :
    ∀ (l : List α), (l.zip l.tail).map Prod.snd = l.tail := by
  intro l
  induction l with
  | nil => simp
  | cons a rest ih =>
    cases rest with
    | nil => simp
    | cons b rest2 =>
      show ((a, b) :: (b :: rest2).zip (b :: rest2).tail).map Prod.snd
        = b :: (b :: rest2).tail
      rw [List.map_cons, ih]

theorem shot_boundaries_sorted {F : Type*} (get_frame : ℚ → F)
    (frame_diff : F → F → ℚ) (threshold fps duration : ℚ)
    (hfps : 0 < fps) (hdur : 0 < duration) :
    (shot_boundaries get_frame frame_diff threshold fps duration).Pairwise
      (· < ·) := by
  have hts := sample_times_sorted fps duration hfps
  have htail : (sample_times fps duration).tail.Pairwise (· < ·) :=
    hts.sublist (List.tail_sublist _)
  set ts := sample_times fps duration with hts_def
  set detected := ((ts.zip ts.tail).filter (fun p =>
      threshold < frame_diff (get_frame p.2) (get_frame p.1))).map
        (fun p => p.2) with hdet_def
  have hsub : List.Sublist detected ts.tail := by
    rw [hdet_def]
    have h1 := List.Sublist.map (fun p : ℚ × ℚ => p.2)
      (List.filter_sublist (l := ts.zip ts.tail) (p := fun p =>
        threshold < frame_diff (get_frame p.2) (get_frame p.1)))
    rwa [show (ts.zip ts.tail).map (fun p : ℚ × ℚ => p.2) = ts.tail from
      map_snd_zip_tail ts] at h1
  have hdet_sorted : detected.Pairwise (· < ·) := htail.sublist hsub
  have hdet_elem : ∀ x ∈ detected, 0 < x ∧ x < duration := by
    intro x hx
    rw [hdet_def] at hx
    obtain ⟨p, hpf, rfl⟩ := List.mem_map.1 hx
    have hpz := List.mem_of_mem_filter hpf
    obtain ⟨hplt, hp1, hp2⟩ := zip_tail_pairs (· < ·) ts hts p hpz
    have h1 := sample_times_elem fps duration hfps p.1 hp1
    have h2 := sample_times_elem fps duration hfps p.2 hp2
    exact ⟨lt_of_le_of_lt h1.1 hplt, h2.2⟩
  show (0 :: (detected ++ [duration])).Pairwise (· < ·)
  refine List.pairwise_cons.2 ⟨?_, ?_⟩
  · intro x hx
    rcases List.mem_append.1 hx with hx | hx
    · exact (hdet_elem x hx).1
    · rw [List.mem_singleton.1 hx]
      exact hdur
  · refine List.pairwise_append.2 ⟨hdet_sorted, List.pairwise_singleton _ _, ?_⟩
    intro x hx y hy
    rw [List.mem_singleton.1 hy]
    exact (hdet_elem x hx).2

theorem shot_boundaries_elem {F : Type*} (get_frame : ℚ → F)
    (frame_diff : F → F → ℚ) (threshold fps duration : ℚ)
    (hfps : 0 < fps) (hdur : 0 < duration) :
    ∀ x ∈ shot_boundaries get_frame frame_diff threshold fps duration,
      0 ≤ x ∧ x ≤ duration := by
  have hts := sample_times_sorted fps duration hfps
  intro x hx
  have hx' : x = 0 ∨ x ∈ (((sample_times fps duration).zip
      (sample_times fps duration).tail).filter (fun p =>
        threshold < frame_diff (get_frame p.2) (get_frame p.1))).map
          (fun p => p.2) ∨ x = duration := by
    rcases List.mem_cons.1 hx with h | h
    · exact Or.inl h
    · rcases List.mem_append.1 h with h | h
      · exact Or.inr (Or.inl h)
      · exact Or.inr (Or.inr (List.mem_singleton.1 h))
  rcases hx' with rfl | hmem | rfl
  · exact ⟨le_refl 0, le_of_lt hdur⟩
  · obtain ⟨p, hpf, rfl⟩ := List.mem_map.1 hmem
    have hpz := List.mem_of_mem_filter hpf
    obtain ⟨hplt, hp1, hp2⟩ := zip_tail_pairs (· < ·) _ hts p hpz
    have h2 := sample_times_elem fps duration hfps p.2 hp2
    have h1 := sample_times_elem fps duration hfps p.1 hp1
    exact ⟨le_of_lt (lt_of_le_of_lt h1.1 hplt), le_of_lt h2.2⟩
  · exact ⟨le_of_lt hdur, le_refl _⟩

theorem shots_of_boundaries_mem :
    ∀ (l : List ℚ), ∀ s ∈ shots_of_boundaries l,
      1 / 2 ≤ s.end_timestamp - s.start_timestamp
      ∧ s.start_timestamp ∈ l ∧ s.end_timestamp ∈ l := by
  intro l
  induction l with
  | nil => simp [shots_of_boundaries]
  | cons a rest ih =>
    cases rest with
    | nil => simp [shots_of_boundaries]
    | cons b rest2 =>
      intro s hs
      simp only [shots_of_boundaries] at hs
      by_cases h : b - a < 1 / 2
      · rw [if_pos h] at hs
        obtain ⟨hd, h1, h2⟩ := ih s hs
        exact ⟨hd, List.mem_cons_of_mem _ h1, List.mem_cons_of_mem _ h2⟩
      · rw [if_neg h] at hs
        rcases List.mem_cons.1 hs with rfl | hs
        · exact ⟨not_lt.1 h, List.mem_cons_self _ _,
            List.mem_cons_of_mem _ (List.mem_cons_self _ _)⟩
        · obtain ⟨hd, h1, h2⟩ := ih s hs
          exact ⟨hd, List.mem_cons_of_mem _ h1, List.mem_cons_of_mem _ h2⟩

theorem shots_of_boundaries_chain :
    ∀ (l : List ℚ), l.Pairwise (· < ·) →
      (shots_of_boundaries l).Chain'
        (fun s t => s.end_timestamp ≤ t.start_timestamp) := by
  intro l
  induction l with
  | nil => simp [shots_of_boundaries]
  | cons a rest ih =>
    cases rest with
    | nil => simp [shots_of_boundaries]
    | cons b rest2 =>
      intro hp
      have hp' : (b :: rest2).Pairwise (· < ·) := (List.pairwise_cons.1 hp).2
      simp only [shots_of_boundaries]
      by_cases h : b - a < 1 / 2
      · rw [if_pos h]
        exact ih hp'
      · rw [if_neg h]
        refine List.chain'_cons'.2 ⟨?_, ih hp'⟩
        intro t ht
        have htmem : t ∈ shots_of_boundaries (b :: rest2) :=
          List.mem_of_mem_head? ht
        have hstart := (shots_of_boundaries_mem _ t htmem).2.1
        show b ≤ t.start_timestamp
        rcases List.mem_cons.1 hstart with heq | hmem
        · exact le_of_eq heq.symm
        · exact le_of_lt (List.rel_of_pairwise_cons hp' hmem)

theorem shots_of_boundaries_complete :
    ∀ (l : List ℚ), ∀ p ∈ l.zip l.tail, 1 / 2 ≤ p.2 - p.1 →
      (⟨p.1, p.2⟩ : ShotInterval) ∈ shots_of_boundaries l := by
  intro l
  induction l with
  | nil => simp
  | cons a rest ih =>
    cases rest with
    | nil => simp
    | cons b rest2 =>
      intro p hp hge
      rw [show (a :: b :: rest2).tail = b :: rest2 from rfl,
        List.zip_cons_cons] at hp
      simp only [shots_of_boundaries]
      rcases List.mem_cons.1 hp with rfl | hp'
      · rw [if_neg (not_lt.2 hge)]
        exact List.mem_cons_self _ _
      · have hmem := ih p hp' hge
        by_cases h : b - a < 1 / 2
        · rw [if_pos h]
          exact hmem
        · rw [if_neg h]
          exact List.mem_cons_of_mem _ hmem

/-- The property asserted by claim C5. -/
def ShotSegmentationSpec {F : Type*} (get_frame : ℚ → F)
    (frame_diff : F → F → ℚ) (threshold fps duration : ℚ) : Prop :=
  (0 ∈ shot_boundaries get_frame frame_diff threshold fps duration
    ∧ duration ∈ shot_boundaries get_frame frame_diff threshold fps duration)
  ∧ (∀ s ∈ analyze_video_shots get_frame frame_diff threshold fps duration,
      1 / 2 ≤ s.end_timestamp - s.start_timestamp
      ∧ s.start_timestamp < s.end_timestamp
      ∧ 0 ≤ s.start_timestamp ∧ s.end_timestamp ≤ duration
      ∧ s.start_timestamp
          ∈ shot_boundaries get_frame frame_diff threshold fps duration
      ∧ s.end_timestamp
          ∈ shot_boundaries get_frame frame_diff threshold fps duration)
  ∧ (analyze_video_shots get_frame frame_diff threshold fps duration).Chain'
      (fun s t => s.end_timestamp ≤ t.start_timestamp)
  ∧ (∀ p ∈ (shot_boundaries get_frame frame_diff threshold fps duration).zip
        (shot_boundaries get_frame frame_diff threshold fps duration).tail,
      1 / 2 ≤ p.2 - p.1 →
        (⟨p.1, p.2⟩ : ShotInterval)
          ∈ analyze_video_shots get_frame frame_diff threshold fps duration)

/-- C5: for a valid video (fps > 0, duration > 0) and any threshold, the
boundary list contains t = 0 and t = duration; every returned shot lasts at
least 0.5 s, has startTime < endTime, and lies within [0, duration];
consecutive returned shots are in increasing time order and do not overlap;
and every consecutive boundary pair at least 0.5 s apart is returned as a
shot (short pairs are dropped, never merged into a neighbour). -/
theorem analyze_video_shots_correct {F : Type*} (get_frame : ℚ → F)
    (frame_diff : F → F → ℚ) (threshold fps duration : ℚ)
    (hfps : 0 < fps) (hdur : 0 < duration) :
    ShotSegmentationSpec get_frame frame_diff threshold fps duration := by
  have hsorted := shot_boundaries_sorted get_frame frame_diff threshold
    fps duration hfps hdur
  have helem := shot_boundaries_elem get_frame frame_diff threshold
    fps duration hfps hdur
  refine ⟨⟨List.mem_cons_self _ _, ?_⟩, ?_, ?_, ?_⟩
  · show duration ∈ 0 :: (_ ++ [duration])
    exact List.mem_cons_of_mem _ (List.mem_append_right _
      (List.mem_singleton.2 rfl))
  · intro s hs
    obtain ⟨hd, h1, h2⟩ := shots_of_boundaries_mem _ s hs
    obtain ⟨h1a, h1b⟩ := helem _ h1
    obtain ⟨h2a, h2b⟩ := helem _ h2
    exact ⟨hd, by linarith, h1a, h2b, h1, h2⟩
  · exact shots_of_boundaries_chain _ hsorted
  · exact shots_of_boundaries_complete _

/-- Witness for C5 at a concrete one-second, 1 fps video whose frames are
the timestamps themselves. -/
theorem analyze_video_shots_correct_witness :
    ShotSegmentationSpec (fun t : ℚ => t) (fun a b => a - b) (3 / 10) 1 1 :=
  analyze_video_shots_correct (fun t : ℚ => t) (fun a b => a - b) (3 / 10) 1 1
    (by decide) (by decide)

/-! ## ShotRanker (`calculate_shot_relevance` / `suggest_shots`,
src/app/routers/video_analysis.py)

Strings model Python truthiness: a `None` tone, description or tag list in
the database behaves exactly like the empty string / empty list in this
function (both are falsy and short-circuit the guard before any use), so
absent values are embedded as `""` / `[]`.  Scores are exact rationals.
`suggest_shots` sorts with Python's stable `list.sort(key=..., reverse=True)`
— descending by relevance, preserving input order among equal scores — which
is `mergeSort` with the Boolean order "left's relevance is at least right's",
then truncates with `[:limit]`. -/

structure VideoShot where
  shot_id : ℕ
  tags : List String
  emotional_tone : String
  scene_description : String
deriving DecidableEq

/-- Python `text.lower()`, at the character-list level. -/
def py_lower (s : String) : String := ⟨s.data.map Char.toLower⟩

/-- Python `text.lower().split()`: split on whitespace and drop the empty
pieces that runs of whitespace produce (`String.split s p` is
`(List.splitOnP p s.data).map String.mk`). -/
def py_words (s : String) : List String :=
  ((List.splitOnP (fun c => c.isWhitespace) (py_lower s).data).map
    String.mk).filter (fun w => w != "")

/-- `len(set(xs) & set(ys))`. -/
def matching_count (xs ys : List String) : ℕ :=
  (xs.dedup.filter (fun t => ys.contains t)).length

def calculate_shot_relevance (shot : VideoShot)
    (scene_description emotional_tone : String)
    (desired_tags : List String) : ℚ :=
  let tag_score : ℚ :=
    if desired_tags ≠ [] ∧ shot.tags ≠ [] then
      (matching_count desired_tags shot.tags : ℚ) * 10
    else 0
  let tone_score : ℚ :=
    if emotional_tone ≠ "" ∧ shot.emotional_tone = emotional_tone then 20
    else 0
  let text_score : ℚ :=
    if scene_description ≠ "" ∧ shot.scene_description ≠ "" then
      (matching_count (py_words scene_description)
        (py_words shot.scene_description) : ℚ) * 5
    else 0
  tag_score + tone_score + text_score

/-- The relevance formula as the claim words it. -/
def relevance_spec (shot : VideoShot)
    (scene_description emotional_tone : String)
    (desired_tags : List String) : ℚ :=
  10 * (matching_count desired_tags shot.tags : ℚ)
  + (if shot.emotional_tone = emotional_tone then 20 else 0)
  + 5 * (matching_count (py_words scene_description)
      (py_words shot.scene_description) : ℚ)

def suggest_shots_ranking (shots : List VideoShot)
    (scene_description emotional_tone : String)
    (desired_tags : List String) (limit : ℕ) : List VideoShot :=
  (shots.mergeSort (fun a b =>
    decide (calculate_shot_relevance b scene_description emotional_tone
        desired_tags
      ≤ calculate_shot_relevance a scene_description emotional_tone
        desired_tags))).take limit

theorem matching_count_nil_left (ys : List String) :
    matching_count [] ys = 0 := rfl

theorem matching_count_nil_right (xs : List String) :
    matching_count xs [] = 0 := by
  simp [matching_count]

theorem py_words_empty : py_words "" = [] := by decide

/-- Counterexample to C9 as stated: for a shot with no tone and a query
with no tone, the code adds no tone bonus (the guard `if emotional_tone`
fails on a falsy tone), while the claim's formula "20 if the query tone
equals the shot's tone" adds 20, since the two absent tones are equal. -/
theorem relevance_counterexample :
    calculate_shot_relevance ⟨0, [], "", ""⟩ "" "" []
      ≠ relevance_spec ⟨0, [], "", ""⟩ "" "" [] := by
  have h1 : calculate_shot_relevance ⟨0, [], "", ""⟩ "" "" [] = 0 := by
    simp [calculate_shot_relevance]
  have h2 : relevance_spec ⟨0, [], "", ""⟩ "" "" [] = 20 := by
    simp [relevance_spec, matching_count_nil_left, py_words_empty,
      matching_count_nil_right]
  rw [h1, h2]
  norm_num

theorem relevance_amended_eq (shot : VideoShot)
    (scene_description emotional_tone : String)
    (desired_tags : List String) :
    calculate_shot_relevance shot scene_description emotional_tone
        desired_tags
      = 10 * (matching_count desired_tags shot.tags : ℚ)
        + (if emotional_tone ≠ "" ∧ shot.emotional_tone = emotional_tone
            then 20 else 0)
        + 5 * (matching_count (py_words scene_description)
            (py_words shot.scene_description) : ℚ) := by
  unfold calculate_shot_relevance
  have htag : (if desired_tags ≠ [] ∧ shot.tags ≠ [] then
        (matching_count desired_tags shot.tags : ℚ) * 10
      else 0) = 10 * (matching_count desired_tags shot.tags : ℚ) := by
    by_cases h1 : desired_tags = []
    · simp [h1, matching_count_nil_left]
    · by_cases h2 : shot.tags = []
      · simp [h1, h2, matching_count_nil_right]
      · rw [if_pos ⟨h1, h2⟩, mul_comm]
  have htext : (if scene_description ≠ "" ∧ shot.scene_description ≠ "" then
        (matching_count (py_words scene_description)
          (py_words shot.scene_description) : ℚ) * 5
      else 0) = 5 * (matching_count (py_words scene_description)
        (py_words shot.scene_description) : ℚ) := by
    by_cases h1 : scene_description = ""
    · simp [h1, py_words_empty, matching_count_nil_left]
    · by_cases h2 : shot.scene_description = ""
      · simp [h1, h2, py_words_empty, matching_count_nil_right]
      · rw [if_pos ⟨h1, h2⟩, mul_comm]
  rw [htag, htext]

theorem suggest_full (shots : List VideoShot)
    (scene_description emotional_tone : String) (desired_tags : List String) :
    suggest_shots_ranking shots scene_description emotional_tone desired_tags
        shots.length
      = shots.mergeSort (fun a b =>
          decide (calculate_shot_relevance b scene_description emotional_tone
              desired_tags
            ≤ calculate_shot_relevance a scene_description emotional_tone
              desired_tags)) := by
  unfold suggest_shots_ranking
  exact List.take_of_length_le (by rw [List.length_mergeSort])

/-- The property asserted by (the amended) claim C9: pointwise relevance
formula, descending order, permutation, stability (relevance-level filters
are preserved, so equal-score shots keep their original relative order),
and truncation to the limit. -/
def SuggestShotsSpec (shots : List VideoShot)
    (scene_description emotional_tone : String) (desired_tags : List String)
    (limit : ℕ) : Prop :=
  (∀ s : VideoShot,
    calculate_shot_relevance s scene_description emotional_tone desired_tags
      = 10 * (matching_count desired_tags s.tags : ℚ)
        + (if emotional_tone ≠ "" ∧ s.emotional_tone = emotional_tone
            then 20 else 0)
        + 5 * (matching_count (py_words scene_description)
            (py_words s.scene_description) : ℚ))
  ∧ (suggest_shots_ranking shots scene_description emotional_tone
      desired_tags shots.length).Pairwise
      (fun a b =>
        calculate_shot_relevance b scene_description emotional_tone
            desired_tags
          ≤ calculate_shot_relevance a scene_description emotional_tone
            desired_tags)
  ∧ (suggest_shots_ranking shots scene_description emotional_tone
      desired_tags shots.length).Perm shots
  ∧ (∀ c : ℚ,
      (suggest_shots_ranking shots scene_description emotional_tone
        desired_tags shots.length).filter
        (fun s => decide (calculate_shot_relevance s scene_description
          emotional_tone desired_tags = c))
      = shots.filter
        (fun s => decide (calculate_shot_relevance s scene_description
          emotional_tone desired_tags = c)))
  ∧ suggest_shots_ranking shots scene_description emotional_tone
      desired_tags limit
      = (suggest_shots_ranking shots scene_description emotional_tone
          desired_tags shots.length).take limit
  ∧ (suggest_shots_ranking shots scene_description emotional_tone
      desired_tags limit).length = min limit shots.length

/-- C9 (amended): relevance is 10·|tag overlap| + 20·(tone equality, only
when the query provides a non-empty tone) + 5·|common lowercased words|;
the suggestions are the shots in descending relevance order with the
original order preserved among equal scores, truncated to at most `limit`
entries. -/
theorem suggest_shots_ranking_correct (shots : List VideoShot)
    (scene_description emotional_tone : String) (desired_tags : List String)
    (limit : ℕ) :
    SuggestShotsSpec shots scene_description emotional_tone desired_tags
      limit := by
  set rel := fun s => calculate_shot_relevance s scene_description
    emotional_tone desired_tags with hrel
  set le := fun a b => decide (rel b ≤ rel a) with hle
  have htrans : ∀ a b c, le a b → le b c → le a c := by
    intro a b c h1 h2
    simp only [hle, decide_eq_true_eq] at h1 h2 ⊢
    exact le_trans h2 h1
  have htotal : ∀ a b, le a b || le b a := by
    intro a b
    rcases le_total (rel b) (rel a) with h | h <;> simp [hle, h]
  have hfull := suggest_full shots scene_description emotional_tone
    desired_tags
  refine ⟨fun s => relevance_amended_eq s scene_description emotional_tone
    desired_tags, ?_, ?_, ?_, ?_, ?_⟩
  · rw [hfull]
    have hp := List.sorted_mergeSort htrans htotal shots
    exact hp.imp (fun h => by simpa [hle, decide_eq_true_eq] using h)
  · rw [hfull]
    exact List.mergeSort_perm shots le
  · intro c
    rw [hfull]
    set p := fun s => decide (rel s = c) with hp_def
    set A := shots.filter p with hA
    have hApair : A.Pairwise (fun a b => le a b = true) := by
      refine List.pairwise_of_forall_mem_list ?_
      intro a ha b hb
      have ha' : rel a = c := by
        have := (List.mem_filter.1 ha).2
        simpa [hp_def] using this
      have hb' : rel b = c := by
        have := (List.mem_filter.1 hb).2
        simpa [hp_def] using this
      simp [hle, ha', hb']
    have hAsub : List.Sublist A shots := by
      rw [hA]
      exact List.filter_sublist _
    have hAms : List.Sublist A (shots.mergeSort le) :=
      List.sublist_mergeSort htrans htotal hApair hAsub
    have hAfix : A.filter p = A :=
      List.filter_eq_self.2 (fun a ha => (List.mem_filter.1 ha).2)
    have h1 : List.Sublist A ((shots.mergeSort le).filter p) := by
      rw [← hAfix]
      exact hAms.filter p
    have hperm : ((shots.mergeSort le).filter p).Perm A :=
      (List.mergeSort_perm shots le).filter p
    exact (h1.eq_of_length hperm.length_eq.symm).symm
  · rw [hfull]
    rfl
  · unfold suggest_shots_ranking
    rw [List.length_take, List.length_mergeSort]

end Dinov3
